import Mathlib

/-!
Verification of the HTML entity renderer in `telebot/formatting.py`
(`apply_html_entities` and its inner helpers `escape_entity`,
`format_entity`, `process_entities`).

Modelling conventions:

* A Python `str` is modelled as `PyStr := List Nat`, the list of its Unicode
  code points.  `pys` builds such a list from a Lean string literal.
* `text.encode("utf-16-le")` produces a byte string in which every UTF-16
  code unit occupies two bytes.  Every index the Python code uses on this
  buffer is even (`entity.offset * 2`, `offset * 2 + length * 2`,
  `len(byte_text)`), so we model the buffer at code-unit granularity
  (`utf16Encode`) and halve every index: Python's `offset * 2` becomes
  `offset` here.  Slicing at even byte positions corresponds exactly to
  slicing the code-unit list.
* Python `bytes.decode("utf-16-le")` (strict) raises `UnicodeDecodeError`
  on an unpaired surrogate; `str.encode("utf-16-le")` raises
  `UnicodeEncodeError` on a lone surrogate code point; `str.format`
  raises `KeyError` on a placeholder that is not supplied.  All fallible
  operations therefore return `Option`, `none` marking an exception.
* A Python object attribute that may be absent (`hasattr(entity, 'url')`)
  is an `Option` field, `none` meaning the attribute is missing.
* `str.format(text=content)` is modelled for templates whose replacement
  fields are plain names (all templates in the source are of this shape):
  `{text}` substitutes the content, any other field name raises `KeyError`
  (`none`), `{{`/`}}` are literal braces, an unterminated field or a stray
  `}` raises `ValueError` (`none`).
* Python's `sorted` is a stable sort; `pySorted` is a stable insertion
  sort by the same key `(offset, -length)`, which yields the same list.
-/

/-- A Python string: the list of its Unicode code points. -/
abbrev PyStr := List Nat

/-- Build a `PyStr` from a Lean string literal. -/
def pys (s : String) : PyStr := s.data.map (fun c => c.toNat)

/-- Decimal rendering of a natural number, as Python's `str(n)` / f-string
interpolation of a non-negative int. -/
def natDecimal (n : Nat) : PyStr := (Nat.repr n).data.map (fun c => c.toNat)

/-- A UTF-16 high (leading) surrogate code unit. -/
def isHighSurrogate (u : Nat) : Bool := decide (0xD800 ≤ u) && decide (u < 0xDC00)

/-- A UTF-16 low (trailing) surrogate code unit. -/
def isLowSurrogate (u : Nat) : Bool := decide (0xDC00 ≤ u) && decide (u < 0xE000)

/-- Either kind of surrogate code unit / code point. -/
def isSurrogate (u : Nat) : Bool := isHighSurrogate u || isLowSurrogate u

/-- UTF-16 code units of one code point. -/
def encodeChar (c : Nat) : List Nat :=
  if c < 0x10000 then [c]
  else [0xD800 + (c - 0x10000) / 0x400, 0xDC00 + (c - 0x10000) % 0x400]

/-- UTF-16 code units of a string (the code-unit view of
`text.encode("utf-16-le")`, one entry per two bytes). -/
def utf16Encode (t : PyStr) : List Nat := t.flatMap encodeChar

/-- `text.encode("utf-16-le")`: raises (`none`) when the string contains a
lone surrogate code point, as Python's encoder does. -/
def utf16EncodeChecked (t : PyStr) : Option (List Nat) :=
  if t.all (fun c => !isSurrogate c) then some (utf16Encode t) else none

/-- Strict UTF-16 decoding of a code-unit list back to code points, as
`bytes.decode("utf-16-le")`: an unpaired surrogate raises (`none`). -/
def utf16Decode : List Nat → Option PyStr
  | [] => some []
  | u :: rest =>
    if isHighSurrogate u then
      match rest with
      | [] => none
      | v :: rest2 =>
        if isLowSurrogate v then
          (utf16Decode rest2).map
            (fun tl => (0x10000 + (u - 0xD800) * 0x400 + (v - 0xDC00)) :: tl)
        else none
    else if isLowSurrogate u then none
    else (utf16Decode rest).map (fun tl => u :: tl)

/-- Python slice `l[a:b]` for `0 ≤ a, b` (out-of-range bounds clamp). -/
def listSlice (l : List Nat) (a b : Nat) : List Nat := (l.take b).drop a

/-- Python `s.replace(old, new)` where `old` is a single character. -/
def pyReplaceChar (old : Nat) (new : PyStr) (s : PyStr) : PyStr :=
  s.flatMap (fun c => if c = old then new else [c])

def ampEsc : PyStr := pys "&amp;"
def ltEsc : PyStr := pys "&lt;"
def gtEsc : PyStr := pys "&gt;"

/-- The escape pass
`text.replace("&", "&amp;").replace("<", "&lt;").replace(">", "&gt;")`,
applied in exactly this order (ampersand first). -/
def escapeStr (s : PyStr) : PyStr :=
  pyReplaceChar 62 gtEsc (pyReplaceChar 60 ltEsc (pyReplaceChar 38 ampEsc s))

/-- Per-character escaping table: a characterization of `escapeStr` used to
state that each source character is escaped exactly once (no re-escaping of
the ampersands produced for `<` and `>`). -/
def escCharSpec (c : Nat) : PyStr :=
  if c = 38 then ampEsc else if c = 60 then ltEsc else if c = 62 then gtEsc else [c]

/-- `escape_entity(text_part)` on a bytes slice: decode UTF-16 (may raise)
then escape the three HTML special characters. -/
def escapeEntity (units : List Nat) : Option PyStr :=
  (utf16Decode units).map escapeStr

/-- A message entity.  `offset`/`length` are in UTF-16 code units.  The
optional payload fields model object attributes that may be absent
(`hasattr` tests in the source): `none` means the attribute is missing.
`user` holds the linked user's id (`entity.user.id`). -/
structure Entity where
  offset : Nat
  length : Nat
  type : PyStr
  user : Option Nat := none
  url : Option PyStr := none
  custom_emoji_id : Option PyStr := none
  language : Option PyStr := none
deriving DecidableEq

/-- Strict comparison of the Python sort keys
`(e.offset, -e.length)` (offset ascending, length descending). -/
def keyLt (a b : Entity) : Prop :=
  a.offset < b.offset ∨ (a.offset = b.offset ∧ b.length < a.length)

instance (a b : Entity) : Decidable (keyLt a b) := by
  unfold keyLt; exact inferInstance

/-- Non-strict key order: `a` may come before `b` in the sorted list. -/
def keyLe (a b : Entity) : Prop := ¬ keyLt b a

/-- Stable insertion: `a` is placed after every existing element whose key
is not strictly greater, so elements with equal keys keep their order. -/
def sInsert (a : Entity) : List Entity → List Entity
  | [] => [a]
  | b :: l => if keyLt a b then a :: b :: l else b :: sInsert a l

/-- `sorted(entities, key=lambda e: (e.offset, -e.length))`: a stable sort
by `(offset ascending, length descending)`.  Python's `sorted` is stable,
and a stable sort by a fixed key is uniquely determined, so this insertion
sort returns the same list. -/
def pySorted (l : List Entity) : List Entity :=
  l.foldl (fun acc x => sInsert x acc) []

/-- A Python `dict` mapping strings to strings, as an insertion-ordered
association list with unique keys. -/
abbrev PyDict := List (PyStr × PyStr)

/-- `d[k] = v`: replace the value of an existing key, else append. -/
def dictSet (d : PyDict) (k v : PyStr) : PyDict :=
  if d.any (fun p => p.1 = k) then
    d.map (fun p => if p.1 = k then (k, v) else p)
  else d ++ [(k, v)]

/-- `for key, value in items: d[key] = value` (Python dicts iterate in
insertion order). -/
def dictUpdate (d : PyDict) (items : PyDict) : PyDict :=
  items.foldl (fun acc p => dictSet acc p.1 p.2) d

/-- `k in d`. -/
def dictContains (d : PyDict) (k : PyStr) : Bool := d.any (fun p => p.1 = k)

/-- `d[k]`, defaulting to `[]` (only used under a `dictContains` guard, as
in the source). -/
def dictGet (d : PyDict) (k : PyStr) : PyStr :=
  ((d.find? (fun p => p.1 = k)).map (fun p => p.2)).getD []

/-- The `_subs` table of `apply_html_entities`, in source order. -/
def defaultSubs : PyDict :=
  [ (pys "bold", pys "<b>\x7btext\x7d</b>")
  , (pys "italic", pys "<i>\x7btext\x7d</i>")
  , (pys "pre", pys "<pre>\x7btext\x7d</pre>")
  , (pys "code", pys "<code>\x7btext\x7d</code>")
  , (pys "text_link", pys "<a href=\"\x7burl\x7d\">\x7btext\x7d</a>")
  , (pys "strikethrough", pys "<s>\x7btext\x7d</s>")
  , (pys "underline", pys "<u>\x7btext\x7d</u>")
  , (pys "spoiler", pys "<span class=\"tg-spoiler\">\x7btext\x7d</span>")
  , (pys "custom_emoji", pys "<tg-emoji emoji-id=\"\x7bcustom_emoji_id\x7d\">\x7btext\x7d</tg-emoji>")
  , (pys "blockquote", pys "<blockquote>\x7btext\x7d</blockquote>")
  , (pys "expandable_blockquote", pys "<blockquote expandable>\x7btext\x7d</blockquote>") ]

/-- `if custom_subs: for key, value in custom_subs.items(): _subs[key] = value`
(`None` and the empty dict are falsy). -/
def buildSubs (customSubs : Option PyDict) : PyDict :=
  match customSubs with
  | none => defaultSubs
  | some cs => if cs.isEmpty then defaultSubs else dictUpdate defaultSubs cs

/-- Scan a replacement field up to the closing `}`: returns the field name
and the rest of the template, or `none` if the field is unterminated. -/
def spanField : List Nat → Option (PyStr × List Nat)
  | [] => none
  | 125 :: rest => some ([], rest)
  | ch :: rest => (spanField rest).map (fun p => (ch :: p.1, p.2))

/-- One pass of `template.format(text=content)`; `fuel` bounds the template
length.  `{text}` substitutes `content`; any other field name raises
`KeyError` (`none`); `{{`/`}}` are literal braces; a stray or unterminated
brace raises `ValueError` (`none`). -/
def pyFormatAux (content : PyStr) : Nat → List Nat → Option PyStr
  | _, [] => some []
  | 0, _ :: _ => none
  | fuel + 1, a :: rest =>
    if a = 123 then
      match rest with
      | [] => none
      | b :: rest2 =>
        if b = 123 then (pyFormatAux content fuel rest2).map (fun tl => 123 :: tl)
        else
          match spanField (b :: rest2) with
          | none => none
          | some (name, rest3) =>
            if name = pys "text" then
              (pyFormatAux content fuel rest3).map (fun tl => content ++ tl)
            else none
    else if a = 125 then
      match rest with
      | [] => none
      | b :: rest2 =>
        if b = 125 then (pyFormatAux content fuel rest2).map (fun tl => 125 :: tl)
        else none
    else (pyFormatAux content fuel rest).map (fun tl => a :: tl)

/-- `template.format(text=content)`. -/
def pyFormat (template : PyStr) (content : PyStr) : Option PyStr :=
  pyFormatAux content template.length template

/-- `format_entity(entity, content)`: the attribute-requiring special cases
are checked first, in source order, then the generic `_subs` lookup, and an
unrecognized type returns the content unchanged. -/
def format_entity (subs : PyDict) (e : Entity) (content : PyStr) : Option PyStr :=
  if e.type = pys "text_mention" ∧ e.user.isSome then
    some (pys "<a href=\"tg://user?id=" ++ natDecimal (e.user.getD 0) ++ pys "\">"
          ++ content ++ pys "</a>")
  else if e.type = pys "text_link" ∧ e.url.isSome then
    some (pys "<a href=\"" ++ e.url.getD [] ++ pys "\">" ++ content ++ pys "</a>")
  else if e.type = pys "custom_emoji" ∧ e.custom_emoji_id.isSome then
    some (pys "<tg-emoji emoji-id=\"" ++ e.custom_emoji_id.getD [] ++ pys "\">"
          ++ content ++ pys "</tg-emoji>")
  else if e.type = pys "pre" ∧ e.language.isSome ∧ e.language.getD [] ≠ [] then
    some (pys "<pre><code class=\"language-" ++ e.language.getD [] ++ pys "\">"
          ++ content ++ pys "</code></pre>")
  else if dictContains subs e.type then
    pyFormat (dictGet subs e.type) content
  else
    some content

/-- One non-base step of `process_entities`, with the recursive calls
abstracted as `recur`.  All byte positions of the source are halved to
code-unit positions (they are all even in the source: `entity.offset * 2`
here is `entity.offset`, `len(byte_text)` is `buf.length`).  The body
mirrors the source line by line: the out-of-window check on the first
entity, the escaped prefix when the entity starts inside the window, the
single-pass split of the tail into nested (start offset inside the current
span) and remaining entities, the recursive interior or escaped slice, the
wrapper, and the tail. -/
def processStep (subs : PyDict) (buf : List Nat)
    (recur : List Entity → Nat → Nat → Option PyStr)
    (cur : Entity) (rest : List Entity) (s e : Nat) : Option PyStr :=
  if e ≤ s then escapeEntity (listSlice buf s e)
  else
    let cs := cur.offset
    let ce := cur.offset + cur.length
    if ce ≤ s ∨ e ≤ cs then escapeEntity (listSlice buf s e)
    else
      let nested := rest.filter (fun x => decide (cs ≤ x.offset) && decide (x.offset < ce))
      let remaining := rest.filter (fun x => !(decide (cs ≤ x.offset) && decide (x.offset < ce)))
      do
        let pre ← if s < cs then escapeEntity (listSlice buf s cs) else pure []
        let inner ←
          if nested.isEmpty then escapeEntity (listSlice buf cs ce)
          else recur nested cs ce
        let wrapped ← format_entity subs cur inner
        let tl ←
          if ce < e then
            if remaining.isEmpty then escapeEntity (listSlice buf ce e)
            else recur remaining ce e
          else pure []
        pure (pre ++ wrapped ++ tl)

/-- `process_entities(byte_text, entity_list, start_pos, end_pos)`.
`fuel` bounds the entity-list length; every recursive call goes to a
strict sublist of the tail, so `l.length` fuel always suffices. -/
def processEntitiesAux (subs : PyDict) (buf : List Nat) :
    Nat → List Entity → Nat → Nat → Option PyStr
  | _, [], s, e => escapeEntity (listSlice buf s e)
  | 0, _ :: _, _, _ => none
  | fuel + 1, cur :: rest, s, e =>
    processStep subs buf (processEntitiesAux subs buf fuel) cur rest s e

/-- `process_entities` with the fuel set to the entity-list length. -/
def processEntities (subs : PyDict) (buf : List Nat) (l : List Entity)
    (s e : Nat) : Option PyStr :=
  processEntitiesAux subs buf l.length l s e

/-- `apply_html_entities(text, entities, custom_subs)`.  `none` in the
result marks a raised exception. -/
def applyHtmlEntities (text : PyStr) (entities : Option (List Entity))
    (customSubs : Option PyDict) : Option PyStr :=
  match entities with
  | none => some (escapeStr text)
  | some [] => some (escapeStr text)
  | some es =>
    (utf16EncodeChecked text).bind (fun buf =>
      processEntities (buildSubs customSubs) buf (pySorted es) 0 buf.length)

/-- The full observable effect of one `apply_html_entities` call: the
returned string together with the caller's entity list after the call.
The source only ever reads the list (`sorted` copies it), so the final
list component is the input list itself. -/
def applyHtmlEntitiesFull (text : PyStr) (entities : Option (List Entity))
    (customSubs : Option PyDict) : Option PyStr × Option (List Entity) :=
  (applyHtmlEntities text entities customSubs, entities)

/-- Disjoint (non-overlapping) spans. -/
def Disj (a b : Entity) : Prop :=
  a.offset + a.length ≤ b.offset ∨ b.offset + b.length ≤ a.offset

/-- Payload completeness for the two types whose generic templates carry a
non-`text` placeholder: a `text_link` needs its `url`, a `custom_emoji`
needs its `custom_emoji_id`; otherwise `str.format` raises `KeyError`. -/
def payloadOk (e : Entity) : Prop :=
  (e.type = pys "text_link" → e.url.isSome = true) ∧
  (e.type = pys "custom_emoji" → e.custom_emoji_id.isSome = true)

/-- Every code point is in the Basic Multilingual Plane and is not a
surrogate: encoding is the identity and no slice can split a pair. -/
def bmpOk (t : PyStr) : Prop :=
  ∀ c ∈ t, c < 0x10000 ∧ isSurrogate c = false

/-- A well-formed Python string: code points below `0x110000` and no lone
surrogates (Python cannot UTF-16-encode a lone surrogate). -/
def pyStrOk (t : PyStr) : Prop :=
  ∀ c ∈ t, c < 0x110000 ∧ isSurrogate c = false

/-- `isBoundary t i`: code-unit position `i` of `utf16Encode t` falls on a
code-point boundary (it does not split a surrogate pair). -/
def isBoundary : PyStr → Nat → Bool
  | _, 0 => true
  | [], _ + 1 => false
  | c :: rest, i + 1 =>
    if c < 0x10000 then isBoundary rest i
    else
      match i with
      | 0 => false
      | j + 1 => isBoundary rest j

/-- An attribute-requiring entity type whose expected payload field is
absent (for `pre`, also an empty language string, which is falsy). -/
def missingPayload (e : Entity) : Prop :=
  (e.type = pys "text_mention" ∧ e.user = none) ∨
  (e.type = pys "pre" ∧ (e.language = none ∨ e.language = some [])) ∨
  (e.type = pys "text_link" ∧ e.url = none) ∨
  (e.type = pys "custom_emoji" ∧ e.custom_emoji_id = none)

/-- What `format_entity` actually does on a payload-less attribute type:
`text_mention` degrades to the bare content, `pre` to the generic
attribute-free template, and `text_link` / `custom_emoji` raise `KeyError`
from the generic template's `url` / `custom_emoji_id` placeholder. -/
def fallbackNoPayload (e : Entity) (content : PyStr) : Option PyStr :=
  if e.type = pys "text_mention" then some content
  else if e.type = pys "pre" then some (pys "<pre>" ++ content ++ pys "</pre>")
  else none

/-- Left-to-right composition of disjoint sorted siblings: escaped gap,
wrapped entity, recurse on the rest.  Used to exhibit the output order of
non-overlapping entities. -/
def renderSiblings (subs : PyDict) (buf : List Nat) :
    List Entity → Nat → Nat → Option PyStr
  | [], s, e => escapeEntity (listSlice buf s e)
  | cur :: rest, s, e => do
    let pre ← escapeEntity (listSlice buf s cur.offset)
    let mid ← escapeEntity (listSlice buf cur.offset (cur.offset + cur.length))
    let wrapped ← format_entity subs cur mid
    let tl ← renderSiblings subs buf rest (cur.offset + cur.length) e
    pure (pre ++ wrapped ++ tl)

instance (e : Entity) : Decidable (missingPayload e) := by
  unfold missingPayload; exact inferInstance

instance (e : Entity) : Decidable (payloadOk e) := by
  unfold payloadOk; exact inferInstance

instance (a b : Entity) : Decidable (Disj a b) := by
  unfold Disj; exact inferInstance

instance (t : PyStr) : Decidable (bmpOk t) := by
  unfold bmpOk; exact inferInstance

instance (t : PyStr) : Decidable (pyStrOk t) := by
  unfold pyStrOk; exact inferInstance

instance (a b : Entity) : Decidable (keyLe a b) := by
  unfold keyLe; exact inferInstance

/-- The four attribute-requiring special cases of `format_entity`, with
their payloads present (for `pre`, a non-empty language, since an empty
string is falsy in Python). -/
def attrSpecial (e : Entity) : Prop :=
  (e.type = pys "text_mention" ∧ e.user.isSome = true) ∨
  (e.type = pys "text_link" ∧ e.url.isSome = true) ∨
  (e.type = pys "custom_emoji" ∧ e.custom_emoji_id.isSome = true) ∨
  (e.type = pys "pre" ∧ ∃ l, e.language = some l ∧ l ≠ [])

instance (e : Entity) : Decidable (attrSpecial e) := by
  unfold attrSpecial; exact inferInstance

/-- The length of a string in UTF-16 code units. -/
def unitLen (t : PyStr) : Nat := (utf16Encode t).length

/-! ### Lemmas about escaping -/

theorem pyReplaceChar_append (o : Nat) (n : PyStr) (a b : PyStr) :
    pyReplaceChar o n (a ++ b) = pyReplaceChar o n a ++ pyReplaceChar o n b := by
  simp [pyReplaceChar]

theorem escapeStr_append (a b : PyStr) :
    escapeStr (a ++ b) = escapeStr a ++ escapeStr b := by
  simp [escapeStr, pyReplaceChar_append]

theorem escapeStr_single (c : Nat) : escapeStr [c] = escCharSpec c := by
  by_cases h1 : c = 38
  · subst h1; decide
  · by_cases h2 : c = 60
    · subst h2; decide
    · by_cases h3 : c = 62
      · subst h3; decide
      · simp [escapeStr, pyReplaceChar, escCharSpec, h1, h2, h3]

theorem escapeStr_flatMap (s : PyStr) : escapeStr s = s.flatMap escCharSpec := by
  induction s with
  | nil => rfl
  | cons c s ih =>
    calc escapeStr (c :: s) = escapeStr ([c] ++ s) := rfl
    _ = escCharSpec c ++ escapeStr s := by rw [escapeStr_append, escapeStr_single]
    _ = (c :: s).flatMap escCharSpec := by rw [ih]; rfl

/-! ### Unfolding lemmas for the resolver -/

theorem processAux_nil (subs : PyDict) (buf : List Nat) (f s e : Nat) :
    processEntitiesAux subs buf f [] s e = escapeEntity (listSlice buf s e) := by
  cases f <;> rfl

theorem processStep_congr (subs : PyDict) (buf : List Nat)
    (r r' : List Entity → Nat → Nat → Option PyStr) (cur : Entity)
    (rest : List Entity) (s e : Nat)
    (h : ∀ l a b, l.length ≤ rest.length → r l a b = r' l a b) :
    processStep subs buf r cur rest s e = processStep subs buf r' cur rest s e := by
  have h1 : r (rest.filter (fun x =>
        decide (cur.offset ≤ x.offset) && decide (x.offset < cur.offset + cur.length)))
        cur.offset (cur.offset + cur.length)
      = r' (rest.filter (fun x =>
        decide (cur.offset ≤ x.offset) && decide (x.offset < cur.offset + cur.length)))
        cur.offset (cur.offset + cur.length) :=
    h _ _ _ (List.length_filter_le _ _)
  have h2 : r (rest.filter (fun x =>
        !(decide (cur.offset ≤ x.offset) && decide (x.offset < cur.offset + cur.length))))
        (cur.offset + cur.length) e
      = r' (rest.filter (fun x =>
        !(decide (cur.offset ≤ x.offset) && decide (x.offset < cur.offset + cur.length))))
        (cur.offset + cur.length) e :=
    h _ _ _ (List.length_filter_le _ _)
  simp only [processStep, h1, h2]

theorem processAux_congr (subs : PyDict) (buf : List Nat) :
    ∀ f g l s e, l.length ≤ f → l.length ≤ g →
      processEntitiesAux subs buf f l s e = processEntitiesAux subs buf g l s e := by
  intro f
  induction f with
  | zero =>
    intro g l s e hf hg
    have hnil : l = [] := List.eq_nil_of_length_eq_zero (Nat.le_zero.mp hf)
    subst hnil
    rw [processAux_nil, processAux_nil]
  | succ f ih =>
    intro g l s e hf hg
    cases l with
    | nil => rw [processAux_nil, processAux_nil]
    | cons cur rest =>
      cases g with
      | zero => simp at hg
      | succ g' =>
        simp only [List.length_cons] at hf hg
        show processStep subs buf (processEntitiesAux subs buf f) cur rest s e
           = processStep subs buf (processEntitiesAux subs buf g') cur rest s e
        apply processStep_congr
        intro l a b hl
        exact ih g' l a b (by omega) (by omega)

theorem processEntities_nil (subs : PyDict) (buf : List Nat) (s e : Nat) :
    processEntities subs buf [] s e = escapeEntity (listSlice buf s e) := rfl

theorem processEntities_cons (subs : PyDict) (buf : List Nat) (cur : Entity)
    (rest : List Entity) (s e : Nat) :
    processEntities subs buf (cur :: rest) s e
      = processStep subs buf (fun l a b => processEntities subs buf l a b) cur rest s e := by
  show processStep subs buf (processEntitiesAux subs buf rest.length) cur rest s e = _
  apply processStep_congr
  intro l a b hl
  exact processAux_congr subs buf rest.length l.length l a b hl (le_refl _)

/-! ### Claim C1 -/

/-- C1: the claim's expected output is wrong on the code: for
`"Hello World"` with `bold(0,10)` and `italic(2,3)` the renderer does not
return `"<b>He<i>llo</i> World</b>"` (the bold span of 10 code units stops
before the final `d`). -/
theorem C1_counterexample :
    applyHtmlEntities (pys "Hello World")
      (some [{ offset := 0, length := 10, type := pys "bold" },
             { offset := 2, length := 3, type := pys "italic" }]) none
      ≠ some (pys "<b>He<i>llo</i> World</b>") := by decide

/-- C1 (amended): for text `"Hello World"` and entities
`[bold(0,10), italic(2,3)]` the renderer returns exactly
`"<b>He<i>llo</i> Worl</b>d"`: the bold wrapper covers code units 0–9 and
the final `d` is escaped tail text outside it. -/
theorem C1_amended :
    applyHtmlEntities (pys "Hello World")
      (some [{ offset := 0, length := 10, type := pys "bold" },
             { offset := 2, length := 3, type := pys "italic" }]) none
      = some (pys "<b>He<i>llo</i> Worl</b>d") := by decide

/-! ### Claim C2 -/

/-- C2: the claim is false: a `text_link` entity with no `url` attribute
makes the renderer raise (`str.format` raises `KeyError` on the `url`
placeholder of the generic template), modelled as `none`. -/
theorem C2_counterexample :
    applyHtmlEntities (pys "ab")
      (some [{ offset := 0, length := 2, type := pys "text_link" }]) none = none := by
  decide

/-- C2 (amended): for an attribute-requiring entity type whose payload is
missing, `format_entity` behaves as `fallbackNoPayload` describes: a
`text_mention` without `user` returns the inner content unwrapped, a `pre`
without a (non-empty) `language` uses the attribute-free generic `pre`
template, while a `text_link` without `url` and a `custom_emoji` without
`custom_emoji_id` raise `KeyError` instead of falling back. -/
theorem C2_amended (e : Entity) (content : PyStr) (h : missingPayload e) :
    format_entity defaultSubs e content = fallbackNoPayload e content := by
  obtain ⟨off, len, ty, u, uu, emo, lang⟩ := e
  rcases h with ⟨hty, hu⟩ | ⟨hty, hl⟩ | ⟨hty, hu⟩ | ⟨hty, hu⟩
  · cases hty; cases hu; rfl
  · rcases hl with hl | hl
    · cases hty; cases hl; rfl
    · cases hty; cases hl; rfl
  · cases hty; cases hu; rfl
  · cases hty; cases hu; rfl

/-- C2 witness: a concrete `text_mention` without `user`. -/
theorem C2_witness :
    missingPayload { offset := 0, length := 2, type := pys "text_mention" } ∧
    format_entity defaultSubs { offset := 0, length := 2, type := pys "text_mention" }
        (pys "hi")
      = fallbackNoPayload { offset := 0, length := 2, type := pys "text_mention" }
        (pys "hi") :=
  ⟨by decide, C2_amended _ _ (by decide)⟩

/-! ### Claim C5 -/

/-- C5: with an absent (`None`) or empty entity list the renderer returns
the text with exactly ampersand, less-than and greater-than replaced, the
ampersand pass running first (`escapeStr` applies the three `replace`
passes in source order), and each source character is escaped exactly once
(`escapeStr` equals the per-character table `escCharSpec`, so a literal `&`
is never double-escaped). -/
theorem C5_empty_entities (t : PyStr) (customSubs : Option PyDict) :
    applyHtmlEntities t none customSubs = some (escapeStr t) ∧
    applyHtmlEntities t (some []) customSubs = some (escapeStr t) ∧
    escapeStr t = t.flatMap escCharSpec :=
  ⟨rfl, rfl, escapeStr_flatMap t⟩

/-! ### Claim C9 -/

/-- C9: a render call never mutates the caller's entity list: the list
component of the call's full effect is the input list itself (the source
only reads the entities; `sorted` copies the list). -/
theorem C9_entities_unchanged (text : PyStr) (entities : Option (List Entity))
    (customSubs : Option PyDict) :
    (applyHtmlEntitiesFull text entities customSubs).2 = entities := rfl

/-! ### Claim C8 -/

theorem format_entity_pre_lang (subs : PyDict) (off len : Nat) (u : Option Nat)
    (uu emo : Option PyStr) (l : PyStr) (hne : l ≠ []) (c : PyStr) :
    format_entity subs ⟨off, len, pys "pre", u, uu, emo, some l⟩ c
      = some (pys "<pre><code class=\"language-" ++ l ++ pys "\">" ++ c
              ++ pys "</code></pre>") := by
  unfold format_entity
  split_ifs with h1 h2 h3 h4
  · exact absurd h1.1 (by decide : ¬(pys "pre" = pys "text_mention"))
  · exact absurd h2.1 (by decide : ¬(pys "pre" = pys "text_link"))
  · exact absurd h3.1 (by decide : ¬(pys "pre" = pys "custom_emoji"))
  · rfl
  all_goals exact absurd ⟨rfl, by simp, by simpa using hne⟩ h4

/-- On the four attribute-requiring special cases, `format_entity` never
consults the template table. -/
theorem fmt_attr_indep (subs subs' : PyDict) (e : Entity) (c : PyStr)
    (h : attrSpecial e) :
    format_entity subs e c = format_entity subs' e c := by
  obtain ⟨off, len, ty, u, uu, emo, lang⟩ := e
  rcases h with ⟨hty, hu⟩ | ⟨hty, hu⟩ | ⟨hty, hu⟩ | ⟨hty, l, hl, hne⟩
  · cases hty
    obtain ⟨uid, rfl⟩ := Option.isSome_iff_exists.mp hu
    rfl
  · cases hty
    obtain ⟨uv, rfl⟩ := Option.isSome_iff_exists.mp hu
    rfl
  · cases hty
    obtain ⟨ev, rfl⟩ := Option.isSome_iff_exists.mp hu
    rfl
  · cases hty
    cases hl
    exact (format_entity_pre_lang subs off len u uu emo l hne c).trans
      (format_entity_pre_lang subs' off len u uu emo l hne c).symm

theorem dictGet_map_set (d : PyDict) (k v : PyStr) (h : ∃ p ∈ d, p.1 = k) :
    dictGet (d.map (fun p => if p.1 = k then (k, v) else p)) k = v := by
  induction d with
  | nil => simp at h
  | cons hd tl ih =>
    by_cases hhd : hd.1 = k
    · simp only [dictGet, List.map_cons, if_pos hhd]
      rw [List.find?_cons_of_pos _ (by simp)]
      rfl
    · have h' : ∃ p ∈ tl, p.1 = k := by
        rcases h with ⟨p, hp, hk⟩
        rcases List.mem_cons.mp hp with rfl | hp2
        · exact absurd hk hhd
        · exact ⟨p, hp2, hk⟩
      have htl := ih h'
      simp only [dictGet, List.map_cons, if_neg hhd] at htl ⊢
      rw [List.find?_cons_of_neg _ (by simpa using hhd)]
      exact htl

theorem dictSet_same_key (d : PyDict) (k v : PyStr) :
    dictContains (dictSet d k v) k = true ∧ dictGet (dictSet d k v) k = v := by
  unfold dictSet
  split_ifs with h
  · have hex : ∃ p ∈ d, p.1 = k := by
      simpa only [List.any_eq_true, decide_eq_true_eq] using h
    constructor
    · unfold dictContains
      simp only [List.any_eq_true, decide_eq_true_eq]
      obtain ⟨p, hp, hk⟩ := hex
      exact ⟨(k, v), List.mem_map.mpr ⟨p, hp, by simp [hk]⟩, rfl⟩
    · exact dictGet_map_set d k v hex
  · constructor
    · unfold dictContains
      simp
    · unfold dictGet
      rw [List.find?_append]
      have hnone : d.find? (fun p => decide (p.1 = k)) = none := by
        rw [List.find?_eq_none]
        intro p hp hk
        exact h (List.any_eq_true.mpr ⟨p, hp, hk⟩)
      rw [hnone]
      simp [List.find?]

/-- A single-entity `processStep` never uses its recursion argument and
depends on the template table only through `format_entity` of that
entity. -/
theorem processStep_single_fmt (subs subs' : PyDict) (buf : List Nat)
    (r r' : List Entity → Nat → Nat → Option PyStr) (e : Entity) (s en : Nat)
    (hf : ∀ c, format_entity subs e c = format_entity subs' e c) :
    processStep subs buf r e [] s en = processStep subs' buf r' e [] s en := by
  simp only [processStep, List.filter_nil, List.isEmpty_nil, if_true, hf]

/-- C8: caller-supplied custom templates replace or extend entries of the
generic table (`dictSet` overwrites an existing key's value or appends the
new key), but never change the rendering of the attribute-requiring
special cases: a single-entity render of a `text_mention` with a user, a
`text_link` with a url, a `custom_emoji` with an id, or a `pre` with a
non-empty language is identical with and without custom templates. -/
theorem C8_custom_templates (t : PyStr) (e : Entity) (customSubs : PyDict)
    (h : attrSpecial e) :
    applyHtmlEntities t (some [e]) (some customSubs)
      = applyHtmlEntities t (some [e]) none ∧
    (∀ d k v, dictContains (dictSet d k v) k = true ∧ dictGet (dictSet d k v) k = v) := by
  refine ⟨?_, fun d k v => dictSet_same_key d k v⟩
  show (utf16EncodeChecked t).bind (fun buf =>
        processEntities (buildSubs (some customSubs)) buf (pySorted [e]) 0 buf.length)
      = (utf16EncodeChecked t).bind (fun buf =>
        processEntities defaultSubs buf (pySorted [e]) 0 buf.length)
  cases utf16EncodeChecked t with
  | none => rfl
  | some buf =>
    show processEntities (buildSubs (some customSubs)) buf [e] 0 buf.length
        = processEntities defaultSubs buf [e] 0 buf.length
    rw [processEntities_cons, processEntities_cons]
    exact processStep_single_fmt _ _ buf _ _ e 0 buf.length
      (fun c => fmt_attr_indep _ defaultSubs e c h)

/-- C8 witness: a `text_mention` carrying a user id, rendered with a
custom template table that overrides `bold`. -/
theorem C8_witness :
    attrSpecial { offset := 0, length := 2, type := pys "text_mention", user := some 7 } ∧
    (applyHtmlEntities (pys "hi")
        (some [{ offset := 0, length := 2, type := pys "text_mention", user := some 7 }])
        (some [(pys "bold", pys "X")])
      = applyHtmlEntities (pys "hi")
        (some [{ offset := 0, length := 2, type := pys "text_mention", user := some 7 }])
        none ∧
    (∀ d k v, dictContains (dictSet d k v) k = true ∧ dictGet (dictSet d k v) k = v)) :=
  ⟨by decide, C8_custom_templates (pys "hi") _ [(pys "bold", pys "X")] (by decide)⟩

/-! ### Lemmas about the stable sort -/

theorem keyLt_asymm (a b : Entity) (h : keyLt a b) : ¬ keyLt b a := by
  unfold keyLt at h ⊢
  omega

theorem sInsert_perm (a : Entity) (l : List Entity) : List.Perm (sInsert a l) (a :: l) := by
  induction l with
  | nil => exact List.Perm.refl _
  | cons b l ih =>
    unfold sInsert
    split_ifs
    · exact List.Perm.refl _
    · exact List.Perm.trans (List.Perm.cons b ih) (List.Perm.swap a b l)

theorem foldl_sInsert_perm (l : List Entity) :
    ∀ acc, List.Perm (List.foldl (fun acc x => sInsert x acc) acc l) (acc ++ l) := by
  induction l with
  | nil => intro acc; simp
  | cons x l ih =>
    intro acc
    refine List.Perm.trans (ih (sInsert x acc)) ?_
    exact List.Perm.trans ((sInsert_perm x acc).append_right l) List.perm_middle.symm

theorem pySorted_perm (l : List Entity) : List.Perm (pySorted l) l := by
  simpa using foldl_sInsert_perm l []

theorem sInsert_append_last (x bad : Entity) (hk : keyLt x bad) :
    ∀ acc, sInsert x (acc ++ [bad]) = sInsert x acc ++ [bad] := by
  intro acc
  induction acc with
  | nil =>
    show sInsert x [bad] = [x, bad]
    unfold sInsert
    rw [if_pos hk]
  | cons b l ih =>
    show sInsert x (b :: (l ++ [bad])) = sInsert x (b :: l) ++ [bad]
    unfold sInsert
    split_ifs
    · rfl
    · rw [ih]
      rfl

theorem sInsert_last (bad : Entity) :
    ∀ acc, (∀ b ∈ acc, ¬ keyLt bad b) → sInsert bad acc = acc ++ [bad] := by
  intro acc
  induction acc with
  | nil => intro _; rfl
  | cons b l ih =>
    intro h
    unfold sInsert
    rw [if_neg (h b (List.mem_cons_self b l)), ih (fun c hc => h c (List.mem_cons_of_mem b hc))]
    rfl

theorem foldl_sInsert_bad (bad : Entity) (v : List Entity)
    (h : ∀ x ∈ v, keyLt x bad) :
    ∀ acc, List.foldl (fun acc x => sInsert x acc) (acc ++ [bad]) v
      = List.foldl (fun acc x => sInsert x acc) acc v ++ [bad] := by
  induction v with
  | nil => intro acc; rfl
  | cons x v ih =>
    intro acc
    show List.foldl _ (sInsert x (acc ++ [bad])) v = _
    rw [sInsert_append_last x bad (h x (List.mem_cons_self x v)) acc]
    exact ih (fun y hy => h y (List.mem_cons_of_mem x hy)) (sInsert x acc)

/-- A maximal-key entity ends up last in the sorted list wherever it is in
the input. -/
theorem pySorted_append_bad (u v : List Entity) (bad : Entity)
    (h : ∀ x ∈ u ++ v, keyLt x bad) :
    pySorted (u ++ bad :: v) = pySorted (u ++ v) ++ [bad] := by
  unfold pySorted
  rw [List.foldl_append, List.foldl_cons, List.foldl_append]
  have hu : ∀ b ∈ List.foldl (fun acc x => sInsert x acc) [] u, ¬ keyLt bad b := by
    intro b hb
    have hbu : b ∈ u := by
      have := (foldl_sInsert_perm u []).mem_iff.mp hb
      simpa using this
    exact keyLt_asymm b bad (h b (List.mem_append.mpr (Or.inl hbu)))
  rw [sInsert_last bad _ hu]
  exact foldl_sInsert_bad bad v
    (fun x hx => h x (List.mem_append.mpr (Or.inr hx))) _

/-! ### Claim C3 -/

/-- The renderer on a nonempty entity list: encode, sort, recurse. -/
theorem applyHtmlEntities_nonempty (t : PyStr) (es : List Entity)
    (customSubs : Option PyDict) (h : es ≠ []) :
    applyHtmlEntities t (some es) customSubs
      = (utf16EncodeChecked t).bind (fun buf =>
          processEntities (buildSubs customSubs) buf (pySorted es) 0 buf.length) := by
  cases es with
  | nil => exact absurd rfl h
  | cons e es => rfl

/-- A window whose first entity starts at or beyond the window end renders
as the escaped window, dropping every remaining entity. -/
theorem process_bad_single (subs : PyDict) (buf : List Nat) (bad : Entity)
    (s e : Nat) (he : e ≤ bad.offset) :
    processEntities subs buf [bad] s e = escapeEntity (listSlice buf s e) := by
  rw [processEntities_cons]
  simp only [processStep]
  by_cases h1 : e ≤ s
  · rw [if_pos h1]
  · rw [if_neg h1, if_pos (Or.inr he)]

/-- Appending an entity whose span starts at or beyond the window end (and
beyond every listed entity's span) does not change the rendering. -/
theorem process_append_bad (subs : PyDict) (buf : List Nat) (bad : Entity) :
    ∀ (n : Nat) (l : List Entity) (s e : Nat), l.length ≤ n → e ≤ bad.offset →
      (∀ x ∈ l, x.offset + x.length ≤ bad.offset) →
      processEntities subs buf (l ++ [bad]) s e = processEntities subs buf l s e := by
  intro n
  induction n with
  | zero =>
    intro l s e hn he hx
    have hnil : l = [] := List.eq_nil_of_length_eq_zero (Nat.le_zero.mp hn)
    subst hnil
    rw [processEntities_nil]
    exact process_bad_single subs buf bad s e he
  | succ n ih =>
    intro l s e hn he hx
    cases l with
    | nil =>
      rw [processEntities_nil]
      exact process_bad_single subs buf bad s e he
    | cons cur rest =>
      simp only [List.length_cons] at hn
      have hce : cur.offset + cur.length ≤ bad.offset :=
        hx cur (List.mem_cons_self cur rest)
      rw [show (cur :: rest) ++ [bad] = cur :: (rest ++ [bad]) from rfl,
          processEntities_cons, processEntities_cons]
      simp only [processStep]
      by_cases h1 : e ≤ s
      · rw [if_pos h1, if_pos h1]
      · rw [if_neg h1, if_neg h1]
        by_cases h2 : cur.offset + cur.length ≤ s ∨ e ≤ cur.offset
        · rw [if_pos h2, if_pos h2]
        · rw [if_neg h2, if_neg h2]
          have hbadp : (decide (cur.offset ≤ bad.offset)
              && decide (bad.offset < cur.offset + cur.length)) = false := by
            have hlt : decide (bad.offset < cur.offset + cur.length) = false := by
              simp only [decide_eq_false_iff_not, not_lt]
              omega
            simp [hlt]
          have hnested : (rest ++ [bad]).filter (fun x =>
                decide (cur.offset ≤ x.offset) && decide (x.offset < cur.offset + cur.length))
              = rest.filter (fun x =>
                decide (cur.offset ≤ x.offset) && decide (x.offset < cur.offset + cur.length)) := by
            rw [List.filter_append]
            simp [hbadp]
          have hrem : (rest ++ [bad]).filter (fun x =>
                !(decide (cur.offset ≤ x.offset) && decide (x.offset < cur.offset + cur.length)))
              = rest.filter (fun x =>
                !(decide (cur.offset ≤ x.offset) && decide (x.offset < cur.offset + cur.length)))
                ++ [bad] := by
            rw [List.filter_append]
            simp only [List.filter_cons, List.filter_nil, hbadp]
            rfl
          rw [hnested, hrem]
          have hrlen : (rest.filter (fun x =>
              !(decide (cur.offset ≤ x.offset) && decide (x.offset < cur.offset + cur.length)))).length ≤ n :=
            le_trans (List.length_filter_le _ _) (by omega)
          have hrmem : ∀ x ∈ rest.filter (fun x =>
              !(decide (cur.offset ≤ x.offset) && decide (x.offset < cur.offset + cur.length))),
              x.offset + x.length ≤ bad.offset := by
            intro x hxm
            exact hx x (List.mem_cons_of_mem cur (List.mem_of_mem_filter hxm))
          have htail : (processEntities subs buf (rest.filter (fun x =>
                !(decide (cur.offset ≤ x.offset) && decide (x.offset < cur.offset + cur.length)))
                ++ [bad]) (cur.offset + cur.length) e)
              = processEntities subs buf (rest.filter (fun x =>
                !(decide (cur.offset ≤ x.offset) && decide (x.offset < cur.offset + cur.length))))
                (cur.offset + cur.length) e :=
            ih _ _ _ hrlen he hrmem
          cases hrc : rest.filter (fun x =>
              !(decide (cur.offset ≤ x.offset) && decide (x.offset < cur.offset + cur.length))) with
          | nil =>
            rw [hrc] at htail
            simp only [List.nil_append] at htail
            simp [htail, processEntities_nil]
          | cons a as =>
            rw [hrc] at htail
            simp only [List.cons_append] at htail
            simp [htail]

/-- C3: the claim is false: a zero-length (malformed) entity at offset 0
sorts first, is treated as out-of-window, and makes the renderer escape
the whole text, dropping the well-formed italic sibling's markup (compare
the render without the malformed entity). -/
theorem C3_counterexample :
    applyHtmlEntities (pys "Hello")
        (some [{ offset := 0, length := 0, type := pys "bold" },
               { offset := 1, length := 2, type := pys "italic" }]) none
      = some (pys "Hello") ∧
    applyHtmlEntities (pys "Hello")
        (some [{ offset := 1, length := 2, type := pys "italic" }]) none
      = some (pys "H<i>el</i>lo") := by
  constructor <;> decide

/-- C3 (amended): a malformed out-of-range entity whose offset is at least
the text's code-unit length (hence beyond every well-formed entity's span)
does not change the rendering: it sorts last and every recursion window
classifies it as out-of-window only when it is alone, where the window is
escaped exactly as it would be without it.  (A malformed zero-length
entity that sorts first instead suppresses its siblings' markup, per the
counterexample.) -/
theorem C3_amended (t : PyStr) (u v : List Entity) (bad : Entity)
    (customSubs : Option PyDict)
    (hwf : ∀ x ∈ u ++ v, 0 < x.length ∧ x.offset + x.length ≤ unitLen t)
    (hne : u ++ v ≠ [])
    (hbad : unitLen t ≤ bad.offset) :
    applyHtmlEntities t (some (u ++ bad :: v)) customSubs
      = applyHtmlEntities t (some (u ++ v)) customSubs := by
  have hne2 : u ++ bad :: v ≠ [] := by
    intro hh
    have := congrArg List.length hh
    simp at this
  rw [applyHtmlEntities_nonempty t _ customSubs hne2,
      applyHtmlEntities_nonempty t _ customSubs hne]
  cases henc : utf16EncodeChecked t with
  | none => rfl
  | some buf =>
    have hbuf : buf = utf16Encode t := by
      unfold utf16EncodeChecked at henc
      split_ifs at henc with hall
      exact (Option.some_inj.mp henc).symm
    subst hbuf
    show processEntities (buildSubs customSubs) (utf16Encode t)
        (pySorted (u ++ bad :: v)) 0 (utf16Encode t).length
      = processEntities (buildSubs customSubs) (utf16Encode t)
        (pySorted (u ++ v)) 0 (utf16Encode t).length
    have hkey : ∀ x ∈ u ++ v, keyLt x bad := by
      intro x hxm
      have hw := hwf x hxm
      unfold unitLen at hbad hw
      exact Or.inl (by omega)
    rw [pySorted_append_bad u v bad hkey]
    apply process_append_bad (buildSubs customSubs) (utf16Encode t) bad
      (pySorted (u ++ v)).length _ 0 (utf16Encode t).length (le_refl _)
      (by unfold unitLen at hbad; exact hbad)
    intro x hxm
    have hxuv : x ∈ u ++ v := ((pySorted_perm (u ++ v)).mem_iff).mp hxm
    have hw := hwf x hxuv
    unfold unitLen at hbad hw
    omega

/-- C3 witness: italic(1,2) over `"Hello"` with a trailing out-of-range
bold(9,3). -/
theorem C3_witness :
    unitLen (pys "Hello") ≤ 9 ∧
    applyHtmlEntities (pys "Hello")
        (some [{ offset := 9, length := 3, type := pys "bold" },
               { offset := 1, length := 2, type := pys "italic" }]) none
      = applyHtmlEntities (pys "Hello")
        (some [{ offset := 1, length := 2, type := pys "italic" }]) none :=
  ⟨by decide,
   C3_amended (pys "Hello") []
     [{ offset := 1, length := 2, type := pys "italic" }]
     { offset := 9, length := 3, type := pys "bold" } none
     (by decide) (by decide) (by decide)⟩

/-! ### Sortedness of `pySorted` and uniqueness of the sorted order -/

theorem keyLe_of_keyLt (a b : Entity) (h : keyLt a b) : keyLe a b := by
  unfold keyLe keyLt at *
  omega

theorem keyLt_keyLe_trans (a b c : Entity) (h1 : keyLt a b) (h2 : keyLe b c) :
    keyLe a c := by
  unfold keyLe keyLt at *
  omega

theorem keyLe_antisymm_offset (a b : Entity) (h1 : keyLe a b) (h2 : keyLe b a) :
    a.offset = b.offset := by
  unfold keyLe keyLt at *
  omega

theorem sInsert_mem (a : Entity) (l : List Entity) (x : Entity) :
    x ∈ sInsert a l ↔ x = a ∨ x ∈ l :=
  ((sInsert_perm a l).mem_iff).trans List.mem_cons

theorem sInsert_pairwise (a : Entity) (l : List Entity)
    (h : List.Pairwise keyLe l) : List.Pairwise keyLe (sInsert a l) := by
  induction l with
  | nil => exact List.pairwise_singleton keyLe a
  | cons b l ih =>
    rw [List.pairwise_cons] at h
    obtain ⟨hb, hl⟩ := h
    unfold sInsert
    split_ifs with hab
    · rw [List.pairwise_cons]
      refine ⟨?_, List.pairwise_cons.mpr ⟨hb, hl⟩⟩
      intro x hx
      rcases List.mem_cons.mp hx with rfl | hx2
      · exact keyLe_of_keyLt a x hab
      · exact keyLt_keyLe_trans a b x hab (hb x hx2)
    · rw [List.pairwise_cons]
      refine ⟨?_, ih hl⟩
      intro x hx
      rcases (sInsert_mem a l x).mp hx with rfl | hx2
      · exact hab
      · exact hb x hx2

theorem pySorted_sorted (l : List Entity) : List.Pairwise keyLe (pySorted l) := by
  suffices h : ∀ (m : List Entity) (acc : List Entity), List.Pairwise keyLe acc →
      List.Pairwise keyLe (List.foldl (fun acc x => sInsert x acc) acc m) from
    h l [] List.Pairwise.nil
  intro m
  induction m with
  | nil => intro acc h; exact h
  | cons x m ih => intro acc h; exact ih _ (sInsert_pairwise x acc h)

/-- Two sorted permutations of each other with pairwise-distinct offsets
are equal. -/
theorem sorted_perm_unique :
    ∀ (l₁ l₂ : List Entity), List.Perm l₁ l₂ → List.Pairwise keyLe l₁ →
      List.Pairwise keyLe l₂ →
      List.Pairwise (fun x y => x.offset ≠ y.offset) l₁ → l₁ = l₂ := by
  intro l₁
  induction l₁ with
  | nil =>
    intro l₂ hp _ _ _
    exact List.Perm.nil_eq hp
  | cons a t₁ ih =>
    intro l₂ hp hs₁ hs₂ hne
    cases l₂ with
    | nil =>
      have := List.Perm.nil_eq hp.symm
      simp at this
    | cons b t₂ =>
      by_cases hab : a = b
      · subst hab
        have ht := hp.cons_inv
        rw [ih t₂ ht (List.pairwise_cons.mp hs₁).2 (List.pairwise_cons.mp hs₂).2
          (List.pairwise_cons.mp hne).2]
      · have hbmem : b ∈ a :: t₁ := hp.mem_iff.mpr (List.mem_cons_self b t₂)
        have hamem : a ∈ b :: t₂ := hp.mem_iff.mp (List.mem_cons_self a t₁)
        have hb1 : b ∈ t₁ := by
          rcases List.mem_cons.mp hbmem with h | h
          · exact absurd h.symm hab
          · exact h
        have ha2 : a ∈ t₂ := by
          rcases List.mem_cons.mp hamem with h | h
          · exact absurd h hab
          · exact h
        have h1 : keyLe a b := (List.pairwise_cons.mp hs₁).1 b hb1
        have h2 : keyLe b a := (List.pairwise_cons.mp hs₂).1 a ha2
        exact absurd (keyLe_antisymm_offset a b h1 h2)
          ((List.pairwise_cons.mp hne).1 b hb1)

/-! ### Claim C6 -/

theorem listSlice_empty (l : List Nat) (a b : Nat) (h : b ≤ a) :
    listSlice l a b = [] := by
  unfold listSlice
  exact List.drop_eq_nil_of_le (le_trans (List.length_take_le b l) h)

theorem encodeChecked_some (t : PyStr) (buf : List Nat)
    (h : utf16EncodeChecked t = some buf) : buf = utf16Encode t := by
  unfold utf16EncodeChecked at h
  split_ifs at h with hall
  exact (Option.some_inj.mp h).symm

/-- On a sorted list of positive-length, pairwise-disjoint entities whose
spans all lie in the window the resolver degenerates to the left-to-right
sibling composition. -/
theorem process_render_siblings (subs : PyDict) (buf : List Nat) :
    ∀ (l : List Entity) (s e : Nat), List.Pairwise keyLe l → List.Pairwise Disj l →
      (∀ x ∈ l, 0 < x.length ∧ s ≤ x.offset ∧ x.offset + x.length ≤ e) →
      processEntities subs buf l s e = renderSiblings subs buf l s e := by
  intro l
  induction l with
  | nil => intro s e _ _ _; rfl
  | cons cur rest ih =>
    intro s e hsort hdisj hbnd
    obtain ⟨hlen, hsle, hlee⟩ := hbnd cur (List.mem_cons_self cur rest)
    have h1 : ¬ e ≤ s := by omega
    have h2 : ¬ (cur.offset + cur.length ≤ s ∨ e ≤ cur.offset) := by omega
    have hrests : ∀ x ∈ rest, cur.offset + cur.length ≤ x.offset := by
      intro x hx
      have hle : keyLe cur x := (List.pairwise_cons.mp hsort).1 x hx
      have hd : Disj cur x := (List.pairwise_cons.mp hdisj).1 x hx
      have hxw := hbnd x (List.mem_cons_of_mem cur hx)
      unfold keyLe keyLt at hle
      unfold Disj at hd
      omega
    have hband : ∀ x ∈ rest, 0 < x.length ∧
        cur.offset + cur.length ≤ x.offset ∧ x.offset + x.length ≤ e := by
      intro x hx
      have hxw := hbnd x (List.mem_cons_of_mem cur hx)
      exact ⟨hxw.1, hrests x hx, hxw.2.2⟩
    have hnested_nil : rest.filter (fun x =>
        decide (cur.offset ≤ x.offset) && decide (x.offset < cur.offset + cur.length)) = [] := by
      rw [List.filter_eq_nil_iff]
      intro x hx
      have := hrests x hx
      simp only [Bool.and_eq_true, decide_eq_true_eq, not_and, not_lt]
      omega
    have hrem_all : rest.filter (fun x =>
        !(decide (cur.offset ≤ x.offset) && decide (x.offset < cur.offset + cur.length))) = rest := by
      rw [List.filter_eq_self]
      intro x hx
      have := hrests x hx
      simp only [Bool.not_eq_true', Bool.and_eq_false_iff, decide_eq_false_iff_not, not_le, not_lt]
      omega
    have hrec : processEntities subs buf rest (cur.offset + cur.length) e
        = renderSiblings subs buf rest (cur.offset + cur.length) e :=
      ih _ _ (List.pairwise_cons.mp hsort).2 (List.pairwise_cons.mp hdisj).2 hband
    rw [processEntities_cons]
    simp only [processStep]
    rw [if_neg h1, if_neg h2]
    simp only [hnested_nil, hrem_all, List.isEmpty_nil, if_true]
    by_cases hpre : s < cur.offset
    · rw [if_pos hpre]
      cases rest with
      | nil =>
        by_cases hce : cur.offset + cur.length < e
        · simp [renderSiblings, hce]
        · have hsl : listSlice buf (cur.offset + cur.length) e = [] :=
            listSlice_empty buf _ _ (by omega)
          simp [renderSiblings, hce, hsl,
            show escapeEntity ([] : List Nat) = some [] from rfl]
      | cons r rs =>
        have hcelt : cur.offset + cur.length < e := by
          obtain ⟨hr1, hr2, hr3⟩ := hband r (List.mem_cons_self r rs)
          omega
        simp [renderSiblings, hcelt, hrec]
    · rw [if_neg hpre]
      have hsl0 : listSlice buf s cur.offset = [] :=
        listSlice_empty buf _ _ (by omega)
      cases rest with
      | nil =>
        by_cases hce : cur.offset + cur.length < e
        · simp [renderSiblings, hce, hsl0,
            show escapeEntity ([] : List Nat) = some [] from rfl]
        · have hsl : listSlice buf (cur.offset + cur.length) e = [] :=
            listSlice_empty buf _ _ (by omega)
          simp [renderSiblings, hce, hsl, hsl0,
            show escapeEntity ([] : List Nat) = some [] from rfl]
      | cons r rs =>
        have hcelt : cur.offset + cur.length < e := by
          obtain ⟨hr1, hr2, hr3⟩ := hband r (List.mem_cons_self r rs)
          omega
        simp [renderSiblings, hcelt, hrec, hsl0,
          show escapeEntity ([] : List Nat) = some [] from rfl]

/-- C6: the claim is false as stated: two zero-length entities at the same
offset have disjoint (empty) spans, yet permuting the input list changes
the output, because the stable sort keeps their input order and the head
one renders while the second is dropped as out-of-window. -/
theorem C6_counterexample :
    List.Perm
      [({ offset := 1, length := 0, type := pys "bold" } : Entity),
       { offset := 1, length := 0, type := pys "italic" }]
      [({ offset := 1, length := 0, type := pys "italic" } : Entity),
       { offset := 1, length := 0, type := pys "bold" }] ∧
    Disj { offset := 1, length := 0, type := pys "bold" }
      { offset := 1, length := 0, type := pys "italic" } ∧
    applyHtmlEntities (pys "ab")
        (some [{ offset := 1, length := 0, type := pys "bold" },
               { offset := 1, length := 0, type := pys "italic" }]) none
      = some (pys "a<b></b>b") ∧
    applyHtmlEntities (pys "ab")
        (some [{ offset := 1, length := 0, type := pys "italic" },
               { offset := 1, length := 0, type := pys "bold" }]) none
      = some (pys "a<i></i>b") := by
  refine ⟨?_, ?_, ?_, ?_⟩ <;> decide

/-- C6 (amended): the renderer sorts by `(offset ascending, length
descending)` before recursion (`pySorted es` is `keyLe`-sorted and a
permutation of the input); consequently, for pairwise non-overlapping
sibling entities of positive length (zero-length entities excluded, per
the counterexample) whose spans lie inside the text, the output is
identical for every permutation of the input list, and it equals the
left-to-right composition `renderSiblings` of the sorted siblings: escaped
gap, wrapped span, next sibling — markup in ascending offset order. -/
theorem C6_amended (t : PyStr) (es es' : List Entity) (customSubs : Option PyDict)
    (hdisj : List.Pairwise Disj es)
    (hwf : ∀ x ∈ es, 0 < x.length ∧ x.offset + x.length ≤ unitLen t)
    (hperm : List.Perm es' es)
    (hne : es ≠ []) :
    (List.Pairwise keyLe (pySorted es) ∧ List.Perm (pySorted es) es) ∧
    applyHtmlEntities t (some es') customSubs
      = applyHtmlEntities t (some es) customSubs ∧
    applyHtmlEntities t (some es) customSubs
      = (utf16EncodeChecked t).bind (fun buf =>
          renderSiblings (buildSubs customSubs) buf (pySorted es) 0 buf.length) := by
  have hpos : ∀ x ∈ es, 0 < x.length := fun x hx => (hwf x hx).1
  have hoffne : List.Pairwise (fun x y => x.offset ≠ y.offset) es := by
    refine List.Pairwise.imp_of_mem ?_ hdisj
    intro a b ha hb hd
    have ha' := hpos a ha
    have hb' := hpos b hb
    unfold Disj at hd
    omega
  have hsorted_eq : pySorted es' = pySorted es := by
    apply sorted_perm_unique
    · exact ((pySorted_perm es').trans hperm).trans (pySorted_perm es).symm
    · exact pySorted_sorted es'
    · exact pySorted_sorted es
    · exact (List.Perm.pairwise_iff (fun h => Ne.symm h)
        ((pySorted_perm es').trans hperm)).mpr hoffne
  have hne' : es' ≠ [] := by
    intro hh
    subst hh
    exact hne (List.Perm.nil_eq hperm).symm
  refine ⟨⟨pySorted_sorted es, pySorted_perm es⟩, ?_, ?_⟩
  · rw [applyHtmlEntities_nonempty t es' customSubs hne',
        applyHtmlEntities_nonempty t es customSubs hne, hsorted_eq]
  · rw [applyHtmlEntities_nonempty t es customSubs hne]
    cases henc : utf16EncodeChecked t with
    | none => rfl
    | some buf =>
      have hbuf := encodeChecked_some t buf henc
      subst hbuf
      show processEntities (buildSubs customSubs) (utf16Encode t)
          (pySorted es) 0 (utf16Encode t).length
        = renderSiblings (buildSubs customSubs) (utf16Encode t)
          (pySorted es) 0 (utf16Encode t).length
      apply process_render_siblings
      · exact pySorted_sorted es
      · exact (List.Perm.pairwise_iff (fun h => Or.symm h) (pySorted_perm es)).mpr hdisj
      · intro x hx
        have hxm : x ∈ es := (pySorted_perm es).mem_iff.mp hx
        have hw := hwf x hxm
        unfold unitLen at hw
        exact ⟨hw.1, Nat.zero_le _, hw.2⟩

/-- C6 witness: `bold(0,2)` and `italic(3,2)` over `"abcdef"`, presented in
reversed input order. -/
theorem C6_witness :
    (List.Pairwise keyLe (pySorted
        [({ offset := 0, length := 2, type := pys "bold" } : Entity),
         { offset := 3, length := 2, type := pys "italic" }]) ∧
     List.Perm (pySorted
        [({ offset := 0, length := 2, type := pys "bold" } : Entity),
         { offset := 3, length := 2, type := pys "italic" }])
        [({ offset := 0, length := 2, type := pys "bold" } : Entity),
         { offset := 3, length := 2, type := pys "italic" }]) ∧
    applyHtmlEntities (pys "abcdef")
        (some [{ offset := 3, length := 2, type := pys "italic" },
               { offset := 0, length := 2, type := pys "bold" }]) none
      = applyHtmlEntities (pys "abcdef")
        (some [{ offset := 0, length := 2, type := pys "bold" },
               { offset := 3, length := 2, type := pys "italic" }]) none ∧
    applyHtmlEntities (pys "abcdef")
        (some [{ offset := 0, length := 2, type := pys "bold" },
               { offset := 3, length := 2, type := pys "italic" }]) none
      = (utf16EncodeChecked (pys "abcdef")).bind (fun buf =>
          renderSiblings (buildSubs none) buf (pySorted
            [{ offset := 0, length := 2, type := pys "bold" },
             { offset := 3, length := 2, type := pys "italic" }]) 0 buf.length) :=
  C6_amended (pys "abcdef")
    [{ offset := 0, length := 2, type := pys "bold" },
     { offset := 3, length := 2, type := pys "italic" }]
    [{ offset := 3, length := 2, type := pys "italic" },
     { offset := 0, length := 2, type := pys "bold" }]
    none (by decide) (by decide) (by decide) (by decide)

/-! ### Totality lemmas for the renderer -/

theorem decode_no_surrogate : ∀ (us : List Nat),
    (∀ u ∈ us, isSurrogate u = false) → utf16Decode us = some us := by
  intro us
  induction us with
  | nil => intro _; rfl
  | cons u rest ih =>
    intro h
    have hu := h u (List.mem_cons_self u rest)
    unfold isSurrogate at hu
    obtain ⟨hh, hlo⟩ := Bool.or_eq_false_iff.mp hu
    unfold utf16Decode
    simp [hh, hlo, ih (fun x hx => h x (List.mem_cons_of_mem u hx))]

theorem listSlice_subset (l : List Nat) (a b : Nat) :
    ∀ x ∈ listSlice l a b, x ∈ l := by
  intro x hx
  unfold listSlice at hx
  exact List.mem_of_mem_take (List.mem_of_mem_drop hx)

theorem escapeEntity_total (buf : List Nat)
    (hb : ∀ u ∈ buf, isSurrogate u = false) (a b : Nat) :
    ∃ s, escapeEntity (listSlice buf a b) = some s := by
  unfold escapeEntity
  rw [decode_no_surrogate _ (fun x hx => hb x (listSlice_subset buf a b x hx))]
  exact ⟨_, rfl⟩

theorem encode_bmp : ∀ (t : PyStr), bmpOk t → utf16Encode t = t := by
  intro t
  induction t with
  | nil => intro _; rfl
  | cons c rest ih =>
    intro h
    have hc := h c (List.mem_cons_self c rest)
    have ihr := ih (fun x hx => h x (List.mem_cons_of_mem c hx))
    unfold utf16Encode at ihr ⊢
    rw [List.flatMap_cons, ihr]
    unfold encodeChar
    rw [if_pos hc.1]
    rfl

theorem encodeChecked_bmp (t : PyStr) (h : bmpOk t) :
    utf16EncodeChecked t = some t := by
  have hall : t.all (fun c => !isSurrogate c) = true := by
    rw [List.all_eq_true]
    intro c hc
    simp [(h c hc).2]
  unfold utf16EncodeChecked
  rw [if_pos hall, encode_bmp t h]

set_option maxHeartbeats 1600000 in
theorem format_total (e : Entity) (hp : payloadOk e) (c : PyStr) :
    (format_entity defaultSubs e c).isSome = true := by
  obtain ⟨off, len, ty, u, uu, emo, lang⟩ := e
  obtain ⟨hl, hc⟩ := hp
  unfold format_entity
  split_ifs with h1 h2 h3 h4 h5
  · rfl
  · rfl
  · rfl
  · rfl
  · unfold dictContains defaultSubs at h5
    simp only [List.any_cons, List.any_nil, Bool.or_eq_true, decide_eq_true_eq] at h5
    rcases h5 with h|h|h|h|h|h|h|h|h|h|h|h
    case _ => subst h; rfl
    case _ => subst h; rfl
    case _ => subst h; rfl
    case _ => subst h; rfl
    case _ => subst h; exact absurd ⟨rfl, hl rfl⟩ h2
    case _ => subst h; rfl
    case _ => subst h; rfl
    case _ => subst h; rfl
    case _ => subst h; exact absurd ⟨rfl, hc rfl⟩ h3
    case _ => subst h; rfl
    case _ => subst h; rfl
    case _ => simp at h
  · rfl

theorem isSome_bind' {α β : Type} (x : Option α) (f : α → Option β)
    (hx : x.isSome = true) (hf : ∀ a, (f a).isSome = true) :
    (x.bind f).isSome = true := by
  cases x with
  | none => simp at hx
  | some a => exact hf a

/-- With a surrogate-free buffer, complete payloads and default templates,
the resolver never raises. -/
theorem process_total (buf : List Nat)
    (hb : ∀ u ∈ buf, isSurrogate u = false) :
    ∀ (f : Nat) (l : List Entity) (s e : Nat), l.length ≤ f →
      (∀ x ∈ l, payloadOk x) →
      (processEntitiesAux defaultSubs buf f l s e).isSome = true := by
  intro f
  induction f with
  | zero =>
    intro l s e hn hp
    have hnil : l = [] := List.eq_nil_of_length_eq_zero (Nat.le_zero.mp hn)
    subst hnil
    rw [processAux_nil]
    obtain ⟨v, hv⟩ := escapeEntity_total buf hb s e
    simp [hv]
  | succ f ih =>
    intro l s e hn hp
    cases l with
    | nil =>
      rw [processAux_nil]
      obtain ⟨v, hv⟩ := escapeEntity_total buf hb s e
      simp [hv]
    | cons cur rest =>
      simp only [List.length_cons] at hn
      have hesc : ∀ a b, (escapeEntity (listSlice buf a b)).isSome = true := by
        intro a b
        obtain ⟨v, hv⟩ := escapeEntity_total buf hb a b
        simp [hv]
      have hfmt : ∀ content, (format_entity defaultSubs cur content).isSome = true :=
        format_total cur (hp cur (List.mem_cons_self cur rest))
      have hihn : (processEntitiesAux defaultSubs buf f
          (rest.filter (fun x => decide (cur.offset ≤ x.offset)
            && decide (x.offset < cur.offset + cur.length)))
          cur.offset (cur.offset + cur.length)).isSome = true :=
        ih _ _ _ (le_trans (List.length_filter_le _ _) (by omega))
          (fun x hx => hp x (List.mem_cons_of_mem cur (List.mem_of_mem_filter hx)))
      have hihr : (processEntitiesAux defaultSubs buf f
          (rest.filter (fun x => !(decide (cur.offset ≤ x.offset)
            && decide (x.offset < cur.offset + cur.length))))
          (cur.offset + cur.length) e).isSome = true :=
        ih _ _ _ (le_trans (List.length_filter_le _ _) (by omega))
          (fun x hx => hp x (List.mem_cons_of_mem cur (List.mem_of_mem_filter hx)))
      show (processStep defaultSubs buf (processEntitiesAux defaultSubs buf f)
          cur rest s e).isSome = true
      simp only [processStep]
      split_ifs
      all_goals
        repeat
          first
          | rfl
          | exact hesc _ _
          | refine isSome_bind' _ _ (hesc _ _) (fun y => ?_)
          | refine isSome_bind' _ _ hihn (fun y => ?_)
          | refine isSome_bind' _ _ hihr (fun y => ?_)
          | refine isSome_bind' _ _ (hfmt _) (fun y => ?_)
          | refine isSome_bind' _ _ rfl (fun y => ?_)

/-! ### Claim C4 -/

/-- C4: the claim is false: on the single-character text U+1F600 (one
surrogate pair, two code units) the out-of-bounds entity `(offset 1,
length 5)` places a slice boundary inside the surrogate pair, and the
renderer raises `UnicodeDecodeError` (modelled `none`) instead of
returning a string. -/
theorem C4_counterexample :
    unitLen [0x1F600] < 1 + 5 ∧
    applyHtmlEntities [0x1F600]
        (some [{ offset := 1, length := 5, type := pys "bold" }]) none = none := by
  constructor <;> decide

/-- C4 (amended): for a text whose code points are all BMP non-surrogates
(so no boundary can split a surrogate pair) and entities whose
`text_link`/`custom_emoji` payloads are present, the renderer returns a
string for every entity list, including lists with an entity whose offset
or end exceeds the text's code-unit length: Python slicing clamps the
out-of-bounds span.  On non-BMP texts an out-of-bounds boundary inside a
surrogate pair instead raises, per the counterexample. -/
theorem C4_amended (t : PyStr) (es : List Entity)
    (hb : bmpOk t)
    (hp : ∀ x ∈ es, payloadOk x)
    (hoob : ∃ x ∈ es, unitLen t < x.offset ∨ unitLen t < x.offset + x.length) :
    (applyHtmlEntities t (some es) none).isSome = true := by
  cases es with
  | nil => rfl
  | cons e0 rest =>
    show ((utf16EncodeChecked t).bind (fun buf =>
      processEntities (buildSubs none) buf (pySorted (e0 :: rest)) 0 buf.length)).isSome = true
    rw [encodeChecked_bmp t hb]
    show (processEntitiesAux defaultSubs t (pySorted (e0 :: rest)).length
      (pySorted (e0 :: rest)) 0 t.length).isSome = true
    apply process_total t (fun u hu => (hb u hu).2) _ _ _ _ (le_refl _)
    intro x hx
    exact hp x ((pySorted_perm (e0 :: rest)).mem_iff.mp hx)

/-- C4 witness: `bold(1,5)` over the two-unit text `"ab"`. -/
theorem C4_witness :
    (applyHtmlEntities (pys "ab")
      (some [{ offset := 1, length := 5, type := pys "bold" }]) none).isSome = true :=
  C4_amended (pys "ab") [{ offset := 1, length := 5, type := pys "bold" }]
    (by decide) (by decide) (by decide)

/-! ### Surrogate-pair arithmetic for claim C7 -/

theorem utf16Encode_cons (c : Nat) (rest : PyStr) :
    utf16Encode (c :: rest) = encodeChar c ++ utf16Encode rest := by
  unfold utf16Encode
  exact List.flatMap_cons c rest encodeChar

theorem encodeChar_bmp (c : Nat) (hc : c < 0x10000) : encodeChar c = [c] := by
  unfold encodeChar
  rw [if_pos hc]

theorem encodeChar_pair (c : Nat) (hc : ¬ c < 0x10000) :
    encodeChar c = [0xD800 + (c - 0x10000) / 0x400, 0xDC00 + (c - 0x10000) % 0x400] := by
  unfold encodeChar
  rw [if_neg hc]

theorem isBoundary_cons_bmp (c : Nat) (rest : PyStr) (i : Nat) (hc : c < 0x10000) :
    isBoundary (c :: rest) (i + 1) = isBoundary rest i := by
  show (if c < 0x10000 then isBoundary rest i
        else match i with | 0 => false | j + 1 => isBoundary rest j)
      = isBoundary rest i
  rw [if_pos hc]

theorem isBoundary_cons_pair (c : Nat) (rest : PyStr) (i : Nat) (hc : ¬ c < 0x10000) :
    isBoundary (c :: rest) (i + 1 + 1) = isBoundary rest i := by
  show (if c < 0x10000 then isBoundary rest (i + 1)
        else match i + 1 with | 0 => false | j + 1 => isBoundary rest j)
      = isBoundary rest i
  rw [if_neg hc]

theorem decode_encode : ∀ (t : PyStr), pyStrOk t →
    utf16Decode (utf16Encode t) = some t := by
  intro t
  induction t with
  | nil => intro _; rfl
  | cons c rest ih =>
    intro h
    obtain ⟨hlt, hsur⟩ := h c (List.mem_cons_self c rest)
    have ihr := ih (fun x hx => h x (List.mem_cons_of_mem c hx))
    rw [utf16Encode_cons]
    by_cases hc : c < 0x10000
    · rw [encodeChar_bmp c hc, List.singleton_append]
      unfold isSurrogate at hsur
      obtain ⟨hh, hlo⟩ := Bool.or_eq_false_iff.mp hsur
      unfold utf16Decode
      simp [hh, hlo, ihr]
    · rw [encodeChar_pair c hc]
      show utf16Decode ((0xD800 + (c - 0x10000) / 0x400)
          :: (0xDC00 + (c - 0x10000) % 0x400) :: utf16Encode rest)
        = some (c :: rest)
      have hhi : isHighSurrogate (0xD800 + (c - 0x10000) / 0x400) = true := by
        unfold isHighSurrogate
        simp only [Bool.and_eq_true, decide_eq_true_eq]
        omega
      have hlo : isLowSurrogate (0xDC00 + (c - 0x10000) % 0x400) = true := by
        unfold isLowSurrogate
        simp only [Bool.and_eq_true, decide_eq_true_eq]
        omega
      unfold utf16Decode
      rw [hhi]
      simp only [hlo, if_true, ihr, Option.map_some]
      have hval : 0x10000 + (0xD800 + (c - 0x10000) / 0x400 - 0xD800) * 0x400
          + (0xDC00 + (c - 0x10000) % 0x400 - 0xDC00) = c := by omega
      rw [hval]
      rfl

theorem utf16Encode_nil (t : PyStr) (h : utf16Encode t = []) : t = [] := by
  cases t with
  | nil => rfl
  | cons c rest =>
    exfalso
    rw [utf16Encode_cons] at h
    by_cases hc : c < 0x10000
    · rw [encodeChar_bmp c hc] at h
      simp at h
    · rw [encodeChar_pair c hc] at h
      simp at h

theorem boundary_shift : ∀ (p r : PyStr) (j : Nat),
    isBoundary (p ++ r) ((utf16Encode p).length + j) = isBoundary r j := by
  intro p
  induction p with
  | nil =>
    intro r j
    show isBoundary r ((utf16Encode []).length + j) = isBoundary r j
    norm_num [utf16Encode]
  | cons c p ih =>
    intro r j
    rw [List.cons_append]
    by_cases hc : c < 0x10000
    · have hlen : (utf16Encode (c :: p)).length + j = ((utf16Encode p).length + j) + 1 := by
        rw [utf16Encode_cons, encodeChar_bmp c hc]
        simp only [List.length_append, List.length_cons, List.length_nil]
        omega
      rw [hlen, isBoundary_cons_bmp c (p ++ r) _ hc]
      exact ih r j
    · have hlen : (utf16Encode (c :: p)).length + j = ((utf16Encode p).length + j) + 1 + 1 := by
        rw [utf16Encode_cons, encodeChar_pair c hc]
        simp only [List.length_append, List.length_cons, List.length_nil]
        omega
      rw [hlen, isBoundary_cons_pair c (p ++ r) _ hc]
      exact ih r j

theorem boundary_split : ∀ (t : PyStr) (i : Nat), isBoundary t i = true →
    ∃ t1 t2 : PyStr, t = t1 ++ t2 ∧
      utf16Encode t1 = (utf16Encode t).take i ∧
      utf16Encode t2 = (utf16Encode t).drop i := by
  intro t
  induction t with
  | nil =>
    intro i hi
    cases i with
    | zero => exact ⟨[], [], rfl, rfl, rfl⟩
    | succ j => exact absurd hi (by simp [isBoundary])
  | cons c rest ih =>
    intro i hi
    cases i with
    | zero => exact ⟨[], c :: rest, rfl, rfl, rfl⟩
    | succ j =>
      by_cases hc : c < 0x10000
      · have hj : isBoundary rest j = true := by
          rwa [isBoundary_cons_bmp c rest j hc] at hi
        obtain ⟨r1, r2, hre, he1, he2⟩ := ih j hj
        refine ⟨c :: r1, r2, by rw [hre]; rfl, ?_, ?_⟩
        · rw [utf16Encode_cons, utf16Encode_cons, encodeChar_bmp c hc,
              List.singleton_append, List.singleton_append, List.take_succ_cons, he1]
        · rw [utf16Encode_cons, encodeChar_bmp c hc,
              List.singleton_append, List.drop_succ_cons, he2]
      · cases j with
        | zero =>
          exfalso
          have : isBoundary (c :: rest) 1
              = (if c < 0x10000 then isBoundary rest 0
                 else match 0 with | 0 => false | j + 1 => isBoundary rest j) := rfl
          rw [this, if_neg hc] at hi
          exact Bool.noConfusion hi
        | succ k =>
          have hk : isBoundary rest k = true := by
            rwa [isBoundary_cons_pair c rest k hc] at hi
          obtain ⟨r1, r2, hre, he1, he2⟩ := ih k hk
          refine ⟨c :: r1, r2, by rw [hre]; rfl, ?_, ?_⟩
          · rw [utf16Encode_cons, utf16Encode_cons, encodeChar_pair c hc]
            show (0xD800 + (c - 0x10000) / 0x400)
                :: (0xDC00 + (c - 0x10000) % 0x400) :: utf16Encode r1
              = ((0xD800 + (c - 0x10000) / 0x400)
                :: (0xDC00 + (c - 0x10000) % 0x400) :: utf16Encode rest).take (k + 1 + 1)
            rw [List.take_succ_cons, List.take_succ_cons, he1]
          · rw [utf16Encode_cons, encodeChar_pair c hc]
            show utf16Encode r2
              = ((0xD800 + (c - 0x10000) / 0x400)
                :: (0xDC00 + (c - 0x10000) % 0x400) :: utf16Encode rest).drop (k + 1 + 1)
            rw [List.drop_succ_cons, List.drop_succ_cons, he2]

/-! ### Claim C7 -/

/-- C7: for a text containing astral (surrogate-pair) characters and a
single positive-length in-bounds entity whose start and end positions fall
on code-unit boundaries that do not split a pair, the renderer wraps
exactly the substring whose UTF-16 encoding is the code units
`[offset, offset+length)` of the encoded text, with the escaped remainder
on either side. -/
theorem C7_surrogate_selection (t : PyStr) (e : Entity)
    (hok : pyStrOk t)
    (hnb : ∃ c ∈ t, 0x10000 ≤ c)
    (hlen : 0 < e.length)
    (hbound : e.offset + e.length ≤ unitLen t)
    (hb1 : isBoundary t e.offset = true)
    (hb2 : isBoundary t (e.offset + e.length) = true) :
    ∃ pre mid post : PyStr,
      t = pre ++ mid ++ post ∧
      utf16Encode mid = listSlice (utf16Encode t) e.offset (e.offset + e.length) ∧
      applyHtmlEntities t (some [e]) none
        = (format_entity defaultSubs e (escapeStr mid)).map
            (fun w => escapeStr pre ++ w ++ escapeStr post) := by
  obtain ⟨t1, t23, hte, he1, he23⟩ := boundary_split t e.offset hb1
  unfold unitLen at hbound
  have ht1len : (utf16Encode t1).length = e.offset := by
    rw [he1, List.length_take]
    omega
  have hb2' : isBoundary t23 e.length = true := by
    have hsh := boundary_shift t1 t23 e.length
    rw [ht1len, ← hte] at hsh
    rw [hsh] at hb2
    exact hb2
  obtain ⟨mid, post, ht23e, hem, hep⟩ := boundary_split t23 e.length hb2'
  have hslmid : utf16Encode mid = listSlice (utf16Encode t) e.offset (e.offset + e.length) := by
    rw [hem, he23]
    unfold listSlice
    rw [List.drop_take]
    have harith : e.offset + e.length - e.offset = e.length := by omega
    rw [harith]
  refine ⟨t1, mid, post, ?_, hslmid, ?_⟩
  · rw [hte, ht23e]
    exact (List.append_assoc t1 mid post).symm
  · have hnosur : ∀ c ∈ t, isSurrogate c = false := fun c hc => (hok c hc).2
    have hchk : utf16EncodeChecked t = some (utf16Encode t) := by
      unfold utf16EncodeChecked
      rw [if_pos (List.all_eq_true.mpr (fun c hc => by simp [hnosur c hc]))]
    show ((utf16EncodeChecked t).bind fun buf =>
        processEntities (buildSubs none) buf (pySorted [e]) 0 buf.length)
      = (format_entity defaultSubs e (escapeStr mid)).map
          (fun w => escapeStr t1 ++ w ++ escapeStr post)
    rw [hchk]
    show processEntities defaultSubs (utf16Encode t) [e] 0 (utf16Encode t).length
      = (format_entity defaultSubs e (escapeStr mid)).map
          (fun w => escapeStr t1 ++ w ++ escapeStr post)
    rw [processEntities_cons]
    simp only [processStep]
    have h1 : ¬ (utf16Encode t).length ≤ 0 := by omega
    have h2 : ¬ (e.offset + e.length ≤ 0 ∨ (utf16Encode t).length ≤ e.offset) := by
      omega
    rw [if_neg h1, if_neg h2]
    simp only [List.filter_nil, List.isEmpty_nil, if_true]
    have hok1 : pyStrOk t1 := fun c hc =>
      hok c (by rw [hte]; exact List.mem_append.mpr (Or.inl hc))
    have hokm : pyStrOk mid := fun c hc =>
      hok c (by
        rw [hte, ht23e]
        exact List.mem_append.mpr (Or.inr (List.mem_append.mpr (Or.inl hc))))
    have hokp : pyStrOk post := fun c hc =>
      hok c (by
        rw [hte, ht23e]
        exact List.mem_append.mpr (Or.inr (List.mem_append.mpr (Or.inr hc))))
    have hesc1 : escapeEntity (listSlice (utf16Encode t) 0 e.offset)
        = some (escapeStr t1) := by
      have hsl : listSlice (utf16Encode t) 0 e.offset = utf16Encode t1 := by
        unfold listSlice
        rw [List.drop_zero, he1]
      rw [hsl]
      unfold escapeEntity
      rw [decode_encode t1 hok1]
      rfl
    have hescm : escapeEntity (listSlice (utf16Encode t) e.offset (e.offset + e.length))
        = some (escapeStr mid) := by
      rw [← hslmid]
      unfold escapeEntity
      rw [decode_encode mid hokm]
      rfl
    have hpost_enc : utf16Encode post = (utf16Encode t).drop (e.offset + e.length) := by
      simp [hep, he23, List.drop_drop, Nat.add_comm]
    have hescp : escapeEntity (listSlice (utf16Encode t)
          (e.offset + e.length) (utf16Encode t).length)
        = some (escapeStr post) := by
      have hsl : listSlice (utf16Encode t) (e.offset + e.length) (utf16Encode t).length
          = utf16Encode post := by
        unfold listSlice
        rw [List.take_length, hpost_enc]
      rw [hsl]
      unfold escapeEntity
      rw [decode_encode post hokp]
      rfl
    by_cases hend : e.offset + e.length < (utf16Encode t).length
    · by_cases hoff : 0 < e.offset
      · rw [if_pos hoff]
        simp only [hesc1, hescm, hescp, Option.some_bind, if_pos hend]
        cases hfm : format_entity defaultSubs e (escapeStr mid) with
        | none => simp [hfm]
        | some w => simp [hfm]
      · have hoff0 : e.offset = 0 := by omega
        have ht1nil : t1 = [] := utf16Encode_nil t1 (by rw [he1, hoff0]; rfl)
        subst ht1nil
        rw [if_neg hoff]
        simp only [hescm, hescp, Option.some_bind, if_pos hend]
        cases hfm : format_entity defaultSubs e (escapeStr mid) with
        | none => simp [hfm]
        | some w => simp [hfm, show escapeStr ([] : PyStr) = ([] : PyStr) from rfl]
    · have hendeq : e.offset + e.length = (utf16Encode t).length := by omega
      have hpostnil : post = [] := utf16Encode_nil post (by
        rw [hpost_enc, hendeq]
        exact List.drop_length _)
      subst hpostnil
      by_cases hoff : 0 < e.offset
      · rw [if_pos hoff]
        simp only [hesc1, hescm, Option.some_bind, if_neg hend]
        cases hfm : format_entity defaultSubs e (escapeStr mid) with
        | none => simp [hfm]
        | some w => simp [hfm, show escapeStr ([] : PyStr) = ([] : PyStr) from rfl]
      · have hoff0 : e.offset = 0 := by omega
        have ht1nil : t1 = [] := utf16Encode_nil t1 (by rw [he1, hoff0]; rfl)
        subst ht1nil
        rw [if_neg hoff]
        simp only [hescm, Option.some_bind, if_neg hend]
        cases hfm : format_entity defaultSubs e (escapeStr mid) with
        | none => simp [hfm]
        | some w => simp [hfm, show escapeStr ([] : PyStr) = ([] : PyStr) from rfl]

/-- C7 witness: `bold(1,2)` over `['a', U+1F600, 'b']` wraps exactly the
emoji's two code units. -/
theorem C7_witness :
    ∃ pre mid post : PyStr,
      ([97, 0x1F600, 98] : PyStr) = pre ++ mid ++ post ∧
      utf16Encode mid = listSlice (utf16Encode [97, 0x1F600, 98]) 1 (1 + 2) ∧
      applyHtmlEntities [97, 0x1F600, 98]
          (some [{ offset := 1, length := 2, type := pys "bold" }]) none
        = (format_entity defaultSubs { offset := 1, length := 2, type := pys "bold" }
            (escapeStr mid)).map
            (fun w => escapeStr pre ++ w ++ escapeStr post) :=
  C7_surrogate_selection [97, 0x1F600, 98]
    { offset := 1, length := 2, type := pys "bold" }
    (by decide) (by decide) (by decide) (by decide) (by decide) (by decide)

/-! ### Claim C10 -/

theorem listSlice_split (l : List Nat) (a b c : Nat) (hab : a ≤ b) (hbc : b ≤ c)
    (hcl : c ≤ l.length) :
    listSlice l a c = listSlice l a b ++ listSlice l b c := by
  unfold listSlice
  have htt : List.take b (List.take c l) = List.take b l := by
    rw [List.take_take, Nat.min_eq_left hbc]
  conv_lhs => rw [← List.take_append_drop b (List.take c l)]
  rw [List.drop_append_eq_append_drop, htt]
  have hlen : (List.take b l).length = b := by
    rw [List.length_take]
    omega
  rw [hlen]
  have hz : a - b = 0 := by omega
  rw [hz, List.drop_zero]

theorem escapeEntity_slice_bmp (t : PyStr) (hb : bmpOk t) (a b : Nat) :
    escapeEntity (listSlice t a b) = some (escapeStr (listSlice t a b)) := by
  unfold escapeEntity
  rw [decode_no_surrogate _ (fun x hx => (hb x (listSlice_subset t a b x hx)).2)]
  rfl

/-- C10: when a second entity starts strictly inside the first's span and
ends strictly after it, its start offset alone classifies it as nested,
its wrapper receives the unclamped slice reaching past the first entity's
end, and the region between the first entity's end and the second
entity's end appears twice in the output: once (escaped) inside both
wrappers, and once again as the escaped tail after the first wrapper's
closing markup. -/
theorem C10_crossing_overlap (t : PyStr) (e1 e2 : Entity) (a1 b1 a2 b2 : PyStr)
    (hb : bmpOk t)
    (h12 : e1.offset < e2.offset)
    (h2in : e2.offset < e1.offset + e1.length)
    (hcross : e1.offset + e1.length < e2.offset + e2.length)
    (hbound : e2.offset + e2.length ≤ t.length)
    (hw1 : ∀ c, format_entity defaultSubs e1 c = some (a1 ++ c ++ b1))
    (hw2 : ∀ c, format_entity defaultSubs e2 c = some (a2 ++ c ++ b2)) :
    applyHtmlEntities t (some [e1, e2]) none
      = some (escapeStr (listSlice t 0 e1.offset) ++ a1
          ++ escapeStr (listSlice t e1.offset e2.offset) ++ a2
          ++ escapeStr (listSlice t e2.offset (e1.offset + e1.length))
          ++ escapeStr (listSlice t (e1.offset + e1.length) (e2.offset + e2.length))
          ++ b2 ++ b1
          ++ escapeStr (listSlice t (e1.offset + e1.length) (e2.offset + e2.length))
          ++ escapeStr (listSlice t (e2.offset + e2.length) t.length)) := by
  have hs : pySorted [e1, e2] = [e1, e2] := by
    have hk : ¬ keyLt e2 e1 := by
      unfold keyLt
      omega
    show sInsert e2 (sInsert e1 []) = [e1, e2]
    show sInsert e2 [e1] = [e1, e2]
    unfold sInsert
    rw [if_neg hk]
    rfl
  rw [applyHtmlEntities_nonempty t [e1, e2] none (by simp), hs,
      encodeChecked_bmp t hb]
  show processEntities (buildSubs none) t [e1, e2] 0 t.length
    = some _
  have hbs : buildSubs none = defaultSubs := rfl
  rw [hbs]
  have hinner : processEntities defaultSubs t [e2] e1.offset (e1.offset + e1.length)
      = some (escapeStr (listSlice t e1.offset e2.offset)
          ++ (a2 ++ escapeStr (listSlice t e2.offset (e2.offset + e2.length)) ++ b2)
          ++ []) := by
    rw [processEntities_cons]
    simp only [processStep]
    rw [if_neg (show ¬ (e1.offset + e1.length ≤ e1.offset) by omega),
        if_neg (show ¬ (e2.offset + e2.length ≤ e1.offset
          ∨ e1.offset + e1.length ≤ e2.offset) by omega)]
    simp only [List.filter_nil, List.isEmpty_nil, if_true]
    rw [if_pos h12]
    simp only [escapeEntity_slice_bmp t hb, Option.some_bind, hw2,
      if_neg (show ¬ (e2.offset + e2.length < e1.offset + e1.length) by omega)]
    rfl
  rw [processEntities_cons]
  simp only [processStep]
  rw [if_neg (show ¬ (t.length ≤ 0) by omega),
      if_neg (show ¬ (e1.offset + e1.length ≤ 0 ∨ t.length ≤ e1.offset) by omega)]
  have hcnd : (fun x => decide (e1.offset ≤ x.offset)
      && decide (x.offset < e1.offset + e1.length)) e2 = true := by
    simp only [Bool.and_eq_true, decide_eq_true_eq]
    omega
  have hn : List.filter (fun x => decide (e1.offset ≤ x.offset)
      && decide (x.offset < e1.offset + e1.length)) [e2] = [e2] := by
    rw [List.filter_cons, if_pos hcnd]
    rfl
  have hr : List.filter (fun x => !(decide (e1.offset ≤ x.offset)
      && decide (x.offset < e1.offset + e1.length))) [e2] = [] := by
    rw [List.filter_cons]
    rw [if_neg (by simp [hcnd])]
    rfl
  simp only [hn, hr, List.isEmpty_cons, List.isEmpty_nil, if_true, Bool.false_eq_true,
    if_false, hinner, escapeEntity_slice_bmp t hb, Option.some_bind, hw1,
    if_pos (show e1.offset + e1.length < t.length by omega)]
  have hsplit2 : listSlice t e2.offset (e2.offset + e2.length)
      = listSlice t e2.offset (e1.offset + e1.length)
        ++ listSlice t (e1.offset + e1.length) (e2.offset + e2.length) :=
    listSlice_split t _ _ _ (by omega) (by omega) (by omega)
  have hsplitTail : listSlice t (e1.offset + e1.length) t.length
      = listSlice t (e1.offset + e1.length) (e2.offset + e2.length)
        ++ listSlice t (e2.offset + e2.length) t.length :=
    listSlice_split t _ _ _ (by omega) (by omega) (by omega)
  by_cases hoff : 0 < e1.offset
  · rw [if_pos hoff]
    rw [hsplit2, hsplitTail, escapeStr_append, escapeStr_append]
    simp [List.append_assoc]
  · have hoff0 : e1.offset = 0 := by omega
    rw [if_neg hoff]
    have hsl0 : listSlice t 0 e1.offset = [] := listSlice_empty t _ _ (by omega)
    rw [hsplit2, hsplitTail, escapeStr_append, escapeStr_append, hsl0]
    simp [List.append_assoc, show escapeStr ([] : PyStr) = ([] : PyStr) from rfl]

set_option maxHeartbeats 1000000 in
/-- C10 witness: `bold(0,3)` crossed by `italic(2,3)` over `"abcdef"`; the
escaped region `de` (code units 3–5) appears both inside the italic
wrapper and in the tail after `</b>`. -/
theorem C10_witness :
    applyHtmlEntities (pys "abcdef")
        (some [{ offset := 0, length := 3, type := pys "bold" },
               { offset := 2, length := 3, type := pys "italic" }]) none
      = some (escapeStr (listSlice (pys "abcdef") 0 0) ++ pys "<b>"
          ++ escapeStr (listSlice (pys "abcdef") 0 2) ++ pys "<i>"
          ++ escapeStr (listSlice (pys "abcdef") 2 3)
          ++ escapeStr (listSlice (pys "abcdef") 3 5)
          ++ pys "</i>" ++ pys "</b>"
          ++ escapeStr (listSlice (pys "abcdef") 3 5)
          ++ escapeStr (listSlice (pys "abcdef") 5 (pys "abcdef").length)) :=
  C10_crossing_overlap (pys "abcdef")
    { offset := 0, length := 3, type := pys "bold" }
    { offset := 2, length := 3, type := pys "italic" }
    (pys "<b>") (pys "</b>") (pys "<i>") (pys "</i>")
    (by decide) (by decide) (by decide) (by decide) (by decide)
    (fun c => rfl) (fun c => rfl)
